import Mathlib

/-!
Verification of the oxproc process supervisor and task runner against its
natural-language specification.

The development shallow-embeds the relevant Rust source files:

* `src/task.rs` — task-name normalization and child-name resolution,
* `src/main.rs` — the recursive task-graph executor (`exec_task`,
  `run_shell_task`, `run_task`),
* `src/manager.rs` — the backward tail reader (`tail_last_lines`), the
  supervisor startup loop (`run_manager_daemon`) and `stop_all`,
* `src/state.rs` — `save_state` / `load_state_from_root` over a modelled
  filesystem.

Conventions: byte streams are `List Nat` (newline is byte 10), paths and
commands are `String`, the OS is a record of functions (`TaskWorld`,
`StopWorld`), and effects are recorded as explicit event traces.  Exit codes
are `Int` (the Rust `i32` values in play are small and never overflow).
-/

namespace Oxproc

/-! ## Task-name functions, from `src/task.rs` -/

/-- The Unicode `White_Space` code points, as tested by Rust's
`char::is_whitespace` (used by `str::trim` inside `normalize_task_query`). -/
def isWhitespaceChar (c : Char) : Bool :=
  c == ' ' || c == '\t' || c == '\n' || c.toNat == 0x0B || c.toNat == 0x0C ||
  c == '\r' || c.toNat == 0x85 || c.toNat == 0xA0 || c.toNat == 0x1680 ||
  (0x2000 ≤ c.toNat && c.toNat ≤ 0x200A) || c.toNat == 0x2028 ||
  c.toNat == 0x2029 || c.toNat == 0x202F || c.toNat == 0x205F ||
  c.toNat == 0x3000

/-- Rust `str::replace(from, to)` for single-character patterns and
single-character replacements. -/
def replaceChar (a b : Char) (s : String) : String :=
  ⟨s.data.map (fun c => if c = a then b else c)⟩

/-- Rust `str::trim`: drop leading and trailing whitespace. -/
def trimString (s : String) : String :=
  ⟨((s.data.dropWhile isWhitespaceChar).reverse.dropWhile isWhitespaceChar).reverse⟩

/-- `task.rs`: `normalize_task_query(s) = s.replace(':', ".").trim()`. -/
def normalize_task_query (s : String) : String :=
  trimString (replaceChar ':' '.' s)

/-- `task.rs`: `display_task_name(s) = s.replace('.', ":")`. -/
def display_task_name (s : String) : String :=
  replaceChar '.' ':' s

/-- `task.rs`: resolve a child task reference relative to a parent namespace.
A child containing a dot (after normalization) is absolute; otherwise it is
appended to the parent's name with a dot. -/
def resolve_child_name (parent child : String) : String :=
  let child_norm := normalize_task_query child
  if '.' ∈ child_norm.data then child_norm
  else if parent = "" then child_norm
  else parent ++ "." ++ child_norm

/-- `true` when the first character, if any, is not whitespace. -/
def noLeadingWs (s : String) : Bool :=
  match s.data.head? with
  | none => true
  | some c => !isWhitespaceChar c

/-- `true` when the last character, if any, is not whitespace. -/
def noTrailingWs (s : String) : Bool :=
  match s.data.getLast? with
  | none => true
  | some c => !isWhitespaceChar c

theorem replaceChar_undo (l : List Char) (h : l.contains ':' = false) :
    (l.map (fun c => if c = '.' then ':' else c)).map
      (fun c => if c = ':' then '.' else c) = l := by
  induction l with
  | nil => rfl
  | cons c rest ih =>
    simp only [List.contains_cons, Bool.or_eq_false_iff] at h
    obtain ⟨hc, hrest⟩ := h
    have hcne : c ≠ ':' := by
      intro hcc
      subst hcc
      simp at hc
    simp only [List.map_cons, ih hrest, List.cons.injEq, and_true]
    by_cases hdot : c = '.'
    · subst hdot
      simp
    · simp [hdot, hcne]

theorem dropWhile_of_head_not (l : List Char)
    (h : ∀ c, l.head? = some c → isWhitespaceChar c = false) :
    l.dropWhile isWhitespaceChar = l := by
  cases l with
  | nil => rfl
  | cons c rest =>
    have hc := h c rfl
    simp [List.dropWhile_cons, hc]

theorem trimString_id (s : String) (h1 : noLeadingWs s = true)
    (h2 : noTrailingWs s = true) : trimString s = s := by
  unfold trimString
  have hhead : ∀ c, s.data.head? = some c → isWhitespaceChar c = false := by
    intro c hc
    unfold noLeadingWs at h1
    rw [hc] at h1
    simpa using h1
  have hlast : ∀ c, s.data.reverse.head? = some c → isWhitespaceChar c = false := by
    intro c hc
    rw [List.head?_reverse] at hc
    unfold noTrailingWs at h2
    rw [hc] at h2
    simpa using h2
  rw [dropWhile_of_head_not _ hhead, dropWhile_of_head_not _ hlast,
    List.reverse_reverse]

/-- Claim C10: for every task name that contains no `':'` and has no leading
or trailing whitespace, converting the internal dotted form to the
user-facing colon form and back is the identity:
`normalize_task_query (display_task_name name) = name`. -/
theorem normalize_display_roundtrip (s : String)
    (hcolon : s.data.contains ':' = false)
    (h1 : noLeadingWs s = true) (h2 : noTrailingWs s = true) :
    normalize_task_query (display_task_name s) = s := by
  have hrepl : replaceChar ':' '.' (display_task_name s) = s := by
    show (⟨(s.data.map (fun c => if c = '.' then ':' else c)).map
      (fun c => if c = ':' then '.' else c)⟩ : String) = s
    rw [replaceChar_undo s.data hcolon]
  unfold normalize_task_query
  rw [hrepl]
  exact trimString_id s h1 h2

/-- Witness for C10 at the concrete name `frontend.build`. -/
theorem normalize_display_roundtrip_witness :
    normalize_task_query (display_task_name "frontend.build") = "frontend.build" :=
  normalize_display_roundtrip "frontend.build" (by decide) (by decide) (by decide)

/-! ## Task graph model, from `src/config.rs` and `src/main.rs` -/

/-- `config.rs` `TaskKind`: a leaf shell task or a composite task. -/
inductive TaskKind where
  | shell (cmd : String) (cwd : Option String)
  | composite (children : List String) (parallel : Bool)
deriving DecidableEq

/-- `config.rs` `TaskConfig`. -/
structure TaskConfig where
  kind : TaskKind
deriving DecidableEq

/-- `main.rs` `ExecOutcome`. -/
inductive ExecOutcome where
  | success
  | failed (code : Int)
deriving DecidableEq

/-- `main.rs` `StdioMode`: `modeInherit` models `StdioMode::Inherit` and
`modeLabeled` models `StdioMode::Prefixed(label)`.  The mode only selects
output plumbing; it does not change a task's outcome. -/
inductive StdioMode where
  | modeInherit
  | modeLabeled (label : String)
deriving DecidableEq

/-- One executed `sh -c` invocation: the final command string (task `cmd`
plus appended extra arguments) and the resolved working directory. -/
structure ShellEvent where
  finalCmd : String
  cwd : String
deriving DecidableEq

/-- The OS as seen by the task engine: which directories exist, and the exit
code `sh -c finalCmd` produces in a given working directory (`none` models
termination by a signal, i.e. `ExitStatus::code() == None`). -/
structure TaskWorld where
  dirExists : String → Bool
  runShell : String → String → Option Int

/-- Rust `Path::is_absolute` on Unix: the path starts with `/`. -/
def isAbsolutePath (p : String) : Bool :=
  match p.data.head? with
  | some c => c = '/'
  | none => false

/-- Rust `root.join(p)` for the paths in play. -/
def joinPath (root p : String) : String :=
  root ++ "/" ++ p

/-- cwd resolution used by `exec_task`/`run_manager_daemon`: absolute paths
pass through, relative ones are joined to the project root. -/
def resolvePath (root p : String) : String :=
  if isAbsolutePath p then p else joinPath root p

/-- The task map of `main.rs` (a `HashMap<String, TaskConfig>` with unique
keys), modelled as an association list; `lookupTask` is `HashMap::get`. -/
def lookupTask : List (String × TaskConfig) → String → Option TaskConfig
  | [], _ => none
  | kv :: rest, name => if kv.1 = name then some kv.2 else lookupTask rest name

/-- Lexicographic comparison on code points, matching Rust's `Ord` for
`String` (UTF-8 byte order coincides with code-point order). -/
def charListLt : List Char → List Char → Bool
  | _, [] => false
  | [], _ :: _ => true
  | c :: cs, d :: ds =>
    if c.toNat < d.toNat then true
    else if d.toNat < c.toNat then false
    else charListLt cs ds

/-- `strLt a b` is Rust's `a < b` on strings. -/
def strLt (a b : String) : Bool :=
  charListLt a.data b.data

/-- Insert into a sorted list of strings (helper for `sortStrings`). -/
def insertSorted (x : String) : List String → List String
  | [] => [x]
  | y :: ys => if strLt x y then x :: y :: ys else y :: insertSorted x ys

/-- Rust `Vec::sort` on strings (ascending lexicographic order).  Which
sorting algorithm is used is unobservable in the joined message, so an
insertion sort stands in for it. -/
def sortStrings : List String → List String
  | [] => []
  | x :: xs => insertSorted x (sortStrings xs)

/-- `main.rs`: the sorted display names of all defined tasks, as listed in
the unknown-task error message. -/
def availableTaskNames (tasks : List (String × TaskConfig)) : List String :=
  sortStrings (tasks.map (fun kv => display_task_name kv.1))

/-- The `exec_task` unknown-task error message. -/
def unknownTaskMessage (tasks : List (String × TaskConfig)) (name : String) : String :=
  "Unknown task '" ++ display_task_name name ++ "'. Available tasks: " ++
    String.intercalate ", " (availableTaskNames tasks)

/-- The `exec_task` dependency-cycle error message: the full call-stack path
(the stack with the repeated name pushed), rendered in display form and
joined by `" -> "`. -/
def cycleMessage (path : List String) : String :=
  "Dependency cycle detected: " ++
    String.intercalate " -> " (path.map display_task_name)

/-- `main.rs` `run_shell_task`, given a resolved working directory: run
`sh -c finalCmd` and translate the exit status.  The Rust code duplicates
this logic identically in the `Inherit` and `Prefixed` arms. -/
def runShellResolved (w : TaskWorld) (finalCmd abs : String) :
    Except String ExecOutcome × List ShellEvent :=
  match w.runShell finalCmd abs with
  | some code =>
    (if code = 0 then Except.ok ExecOutcome.success
     else Except.ok (ExecOutcome.failed code), [⟨finalCmd, abs⟩])
  | none => (Except.error "Task terminated by signal", [⟨finalCmd, abs⟩])

/-- `main.rs` `run_shell_task`: append the extra arguments to the command,
resolve the declared cwd against the project root (defaulting to the root),
fail if the directory does not exist, otherwise run the command. -/
def run_shell_task (w : TaskWorld) (root name cmd_str : String)
    (cwd : Option String) (args : List String) (stdio : StdioMode) :
    Except String ExecOutcome × List ShellEvent :=
  let final_cmd :=
    if args.isEmpty then cmd_str else cmd_str ++ " " ++ String.intercalate " " args
  match cwd with
  | some d =>
    let abs := resolvePath root d
    if w.dirExists abs then
      match stdio with
      | .modeInherit => runShellResolved w final_cmd abs
      | .modeLabeled _ => runShellResolved w final_cmd abs
    else
      (Except.error ("Task '" ++ display_task_name name ++
        "' cwd does not exist: " ++ abs), [])
  | none =>
    match stdio with
    | .modeInherit => runShellResolved w final_cmd root
    | .modeLabeled _ => runShellResolved w final_cmd root

/-- The result-collection loop after `join_all` in the parallel composite
branch of `exec_task`: propagate the first `Err` in launch order, otherwise
remember the first non-zero exit code seen in launch order. -/
def collectParallel : List (Except String ExecOutcome) → Option Int →
    Except String ExecOutcome
  | [], none => Except.ok ExecOutcome.success
  | [], some c => Except.ok (ExecOutcome.failed c)
  | r :: rs, acc =>
    match r with
    | .error e => Except.error e
    | .ok .success => collectParallel rs acc
    | .ok (.failed c) =>
      collectParallel rs (if acc.isNone then some c else acc)

/-- The accumulator step of the sequential composite branch of `exec_task`:
run the next child only while the outcome so far is success, concatenating
the traces. -/
def seqFold (run : String → Except String ExecOutcome × List ShellEvent)
    (acc : Except String ExecOutcome × List ShellEvent) (c : String) :
    Except String ExecOutcome × List ShellEvent :=
  match acc with
  | (Except.ok ExecOutcome.success, tr) =>
    let r := run c
    (r.1, tr ++ r.2)
  | other => other

/-- One unfolding of `main.rs` `exec_task`, parametric in the recursive call
`recur`: look the name up (unknown names error listing all defined names),
detect cycles against the call stack, then run the shell leaf or the
composite children (parallel children each get the pushed stack and a
prefixed output label; sequential children run in order, stopping at the
first failure). -/
def execTaskStep (w : TaskWorld) (root : String)
    (tasks : List (String × TaskConfig)) (args : List String)
    (recur : String → List String → StdioMode →
      Except String ExecOutcome × List ShellEvent)
    (name : String) (stack : List String) (stdio : StdioMode) :
    Except String ExecOutcome × List ShellEvent :=
  match lookupTask tasks name with
  | none => (Except.error (unknownTaskMessage tasks name), [])
  | some task_cfg =>
    if name ∈ stack then
      (Except.error (cycleMessage (stack ++ [name])), [])
    else
      match task_cfg.kind with
      | .shell cmd cwd => run_shell_task w root name cmd cwd args stdio
      | .composite children parallel =>
        if parallel then
          let rs := children.map (fun c =>
            let childAbs := resolve_child_name name c
            recur childAbs (stack ++ [name])
              (StdioMode.modeLabeled (display_task_name childAbs)))
          (collectParallel (rs.map Prod.fst) none, (rs.map Prod.snd).flatten)
        else
          children.foldl
            (seqFold (fun c => recur (resolve_child_name name c)
              (stack ++ [name]) stdio))
            (Except.ok ExecOutcome.success, [])

/-- `main.rs` `exec_task`.  The Rust function recurses through the finite
task map with the cycle check as the only bound; the `fuel` argument is the
Lean-side totality device and every claim is stated with enough fuel for its
hypotheses, so the fuel-exhaustion branch is never observed.  The returned
trace lists every `sh -c` invocation the call performed, in order. -/
def exec_task (w : TaskWorld) (root : String)
    (tasks : List (String × TaskConfig)) (args : List String) :
    Nat → String → List String → StdioMode →
      Except String ExecOutcome × List ShellEvent
  | 0, _, _, _ => (Except.error "ran out of recursion fuel", [])
  | fuel + 1, name, stack, stdio =>
    execTaskStep w root tasks args (exec_task w root tasks args fuel)
      name stack stdio

/-- The gate in `main.rs` `run_task` before the task graph is executed:
normalize the query (`frontend:build` and `frontend.build` are the same
task) and report an unknown root task, listing the available names (with a
dedicated message when no tasks are defined at all). -/
def run_task_lookup (tasks : List (String × TaskConfig)) (query : String) :
    Except String Unit :=
  let key := normalize_task_query query
  match lookupTask tasks key with
  | some _ => Except.ok ()
  | none =>
    let available := availableTaskNames tasks
    if available.isEmpty then
      Except.error ("Unknown task '" ++ query ++ "'. No tasks defined under [tasks].")
    else
      Except.error ("Unknown task '" ++ query ++ "'. Available tasks: " ++
        String.intercalate ", " available)

/-! ## Parallel composite aggregation (claim C2) -/

/-- The first non-zero exit code among the child outcomes, in launch
(declaration) order. -/
def firstFailedCode (outs : List ExecOutcome) : Option Int :=
  (outs.filterMap (fun o => match o with
    | .failed c => some c
    | .success => none)).head?

/-- The composite outcome the spec prescribes for a parallel node: `failed`
with the first non-zero exit code in launch order, `success` when no child
failed. -/
def aggregateParallel (outs : List ExecOutcome) : ExecOutcome :=
  match firstFailedCode outs with
  | some c => ExecOutcome.failed c
  | none => ExecOutcome.success

theorem collectParallel_ok (outs : List ExecOutcome) (acc : Option Int) :
    collectParallel (outs.map Except.ok) acc =
      Except.ok (match acc with
        | some c => ExecOutcome.failed c
        | none => aggregateParallel outs) := by
  induction outs generalizing acc with
  | nil => cases acc <;> rfl
  | cons o rest ih =>
    cases o with
    | success =>
      rw [List.map_cons]
      show collectParallel (rest.map Except.ok) acc = _
      rw [ih]
      cases acc with
      | none =>
        simp only [aggregateParallel, firstFailedCode, List.filterMap_cons]
      | some c => rfl
    | failed c =>
      rw [List.map_cons]
      show collectParallel (rest.map Except.ok) (if acc.isNone then some c else acc) = _
      cases acc with
      | none =>
        rw [ih]
        simp only [Option.isNone_none, if_pos]
        simp only [aggregateParallel, firstFailedCode, List.filterMap_cons,
          List.head?_cons]
      | some a =>
        simp only [Option.isNone_some, Bool.false_eq_true, if_false, ih]

theorem exec_task_parallel_unfold (w : TaskWorld) (root : String)
    (tasks : List (String × TaskConfig)) (args : List String) (fuel : Nat)
    (name : String) (stack : List String) (stdio : StdioMode)
    (children : List String)
    (hlook : lookupTask tasks name = some ⟨.composite children true⟩)
    (hst : name ∉ stack) :
    exec_task w root tasks args (fuel + 1) name stack stdio =
      (collectParallel ((children.map (fun c =>
          exec_task w root tasks args fuel (resolve_child_name name c)
            (stack ++ [name])
            (StdioMode.modeLabeled (display_task_name (resolve_child_name name c))))).map
          Prod.fst) none,
       ((children.map (fun c =>
          exec_task w root tasks args fuel (resolve_child_name name c)
            (stack ++ [name])
            (StdioMode.modeLabeled (display_task_name (resolve_child_name name c))))).map
          Prod.snd).flatten) := by
  show execTaskStep w root tasks args (exec_task w root tasks args fuel)
      name stack stdio = _
  unfold execTaskStep
  rw [hlook]
  simp only [if_neg hst]
  simp

/-- Claim C2: for a parallel composite task, the trace is the concatenation
of every child's complete trace in launch order (no sibling is cancelled
when another fails), and when every child runs to an exit status the
composite outcome is `failed` with the first non-zero exit code in launch
(declaration) order — `success` when no child failed. -/
theorem parallel_composite_first_failure (w : TaskWorld) (root : String)
    (tasks : List (String × TaskConfig)) (args : List String) (fuel : Nat)
    (name : String) (stack : List String) (stdio : StdioMode)
    (children : List String) (outs : List ExecOutcome)
    (hlook : lookupTask tasks name = some ⟨.composite children true⟩)
    (hst : name ∉ stack)
    (houts : (children.map (fun c =>
        (exec_task w root tasks args fuel (resolve_child_name name c)
          (stack ++ [name])
          (StdioMode.modeLabeled (display_task_name (resolve_child_name name c)))).1)) =
      outs.map Except.ok) :
    exec_task w root tasks args (fuel + 1) name stack stdio =
      (Except.ok (aggregateParallel outs),
       (children.map (fun c =>
          (exec_task w root tasks args fuel (resolve_child_name name c)
            (stack ++ [name])
            (StdioMode.modeLabeled (display_task_name (resolve_child_name name c)))).2)).flatten) := by
  rw [exec_task_parallel_unfold w root tasks args fuel name stack stdio children hlook hst]
  rw [List.map_map, List.map_map]
  have h1 : (Prod.fst ∘ fun c =>
      exec_task w root tasks args fuel (resolve_child_name name c)
        (stack ++ [name])
        (StdioMode.modeLabeled (display_task_name (resolve_child_name name c)))) =
      (fun c => (exec_task w root tasks args fuel (resolve_child_name name c)
        (stack ++ [name])
        (StdioMode.modeLabeled (display_task_name (resolve_child_name name c)))).1) := rfl
  have h2 : (Prod.snd ∘ fun c =>
      exec_task w root tasks args fuel (resolve_child_name name c)
        (stack ++ [name])
        (StdioMode.modeLabeled (display_task_name (resolve_child_name name c)))) =
      (fun c => (exec_task w root tasks args fuel (resolve_child_name name c)
        (stack ++ [name])
        (StdioMode.modeLabeled (display_task_name (resolve_child_name name c)))).2) := rfl
  rw [h1, h2, houts, collectParallel_ok]

/-- Task world for the C2 witness: `exit 3` exits with code 3, everything
else with code 0, and every directory exists. -/
def WPar : TaskWorld :=
  ⟨fun _ => true, fun cmd _ => if cmd = "exit 3" then some 3 else some 0⟩

/-- Task map for the C2 witness: `p` runs `x` (fails with 3) and `y`
(succeeds) in parallel. -/
def TasksPar : List (String × TaskConfig) :=
  [("p", ⟨.composite ["x", "y"] true⟩),
   ("p.x", ⟨.shell "exit 3" none⟩),
   ("p.y", ⟨.shell "echo ok" none⟩)]

/-- Witness for C2: the failing first child determines the exit code, and
the succeeding sibling's command still ran (it appears in the trace). -/
theorem parallel_composite_first_failure_witness :
    exec_task WPar "/r" TasksPar [] 5 "p" [] StdioMode.modeInherit =
      (Except.ok (ExecOutcome.failed 3),
       [⟨"exit 3", "/r"⟩, ⟨"echo ok", "/r"⟩]) := by
  have h := parallel_composite_first_failure WPar "/r" TasksPar [] 4 "p" []
    StdioMode.modeInherit ["x", "y"] [ExecOutcome.failed 3, ExecOutcome.success]
    rfl (by decide) rfl
  exact h.trans rfl

/-! ## Sequential composite execution (claim C3) -/

theorem seqFold_not_success
    (run : String → Except String ExecOutcome × List ShellEvent)
    (acc : Except String ExecOutcome × List ShellEvent) (c : String)
    (h : acc.1 ≠ Except.ok ExecOutcome.success) : seqFold run acc c = acc := by
  obtain ⟨r, tr⟩ := acc
  match r with
  | .error e => rfl
  | .ok .success => exact absurd rfl h
  | .ok (.failed code) => rfl

theorem foldl_seqFold_not_success
    (run : String → Except String ExecOutcome × List ShellEvent)
    (acc : Except String ExecOutcome × List ShellEvent) (l : List String)
    (h : acc.1 ≠ Except.ok ExecOutcome.success) :
    l.foldl (seqFold run) acc = acc := by
  induction l with
  | nil => rfl
  | cons c rest ih =>
    rw [List.foldl_cons, seqFold_not_success run acc c h, ih]

theorem foldl_seqFold_success_front
    (run : String → Except String ExecOutcome × List ShellEvent)
    (pre l : List String) (tr0 : List ShellEvent)
    (hpre : ∀ c ∈ pre, (run c).1 = Except.ok ExecOutcome.success) :
    (pre ++ l).foldl (seqFold run) (Except.ok ExecOutcome.success, tr0) =
      l.foldl (seqFold run)
        (Except.ok ExecOutcome.success,
         tr0 ++ (pre.map (fun c => (run c).2)).flatten) := by
  induction pre generalizing tr0 with
  | nil => simp
  | cons c rest ih =>
    have hc : (run c).1 = Except.ok ExecOutcome.success :=
      hpre c (List.mem_cons_self c rest)
    have hrest : ∀ x ∈ rest, (run x).1 = Except.ok ExecOutcome.success :=
      fun x hx => hpre x (List.mem_cons_of_mem c hx)
    rw [List.cons_append, List.foldl_cons]
    show (rest ++ l).foldl (seqFold run) ((run c).1, tr0 ++ (run c).2) = _
    rw [hc, ih (tr0 ++ (run c).2) hrest]
    simp [List.append_assoc]

/-- Claim C3: a sequential composite runs its children strictly in declared
order; when the children before `cf` all succeed and `cf` fails with exit
code `code`, the composite's outcome is `failed code`, and the trace
contains exactly the commands of the preceding children and of `cf` — the
children after `cf` are never executed. -/
theorem sequential_composite_stops_at_first_failure (w : TaskWorld)
    (root : String) (tasks : List (String × TaskConfig)) (args : List String)
    (fuel : Nat) (name : String) (stack : List String) (stdio : StdioMode)
    (pre : List String) (cf : String) (post : List String) (code : Int)
    (hlook : lookupTask tasks name = some ⟨.composite (pre ++ cf :: post) false⟩)
    (hst : name ∉ stack)
    (hpre : ∀ c ∈ pre,
      (exec_task w root tasks args fuel (resolve_child_name name c)
        (stack ++ [name]) stdio).1 = Except.ok ExecOutcome.success)
    (hf : (exec_task w root tasks args fuel (resolve_child_name name cf)
        (stack ++ [name]) stdio).1 = Except.ok (ExecOutcome.failed code)) :
    exec_task w root tasks args (fuel + 1) name stack stdio =
      (Except.ok (ExecOutcome.failed code),
       (pre.map (fun c =>
          (exec_task w root tasks args fuel (resolve_child_name name c)
            (stack ++ [name]) stdio).2)).flatten ++
        (exec_task w root tasks args fuel (resolve_child_name name cf)
          (stack ++ [name]) stdio).2) := by
  show execTaskStep w root tasks args (exec_task w root tasks args fuel)
      name stack stdio = _
  unfold execTaskStep
  rw [hlook]
  simp only [if_neg hst]
  show (pre ++ cf :: post).foldl
      (seqFold (fun c => exec_task w root tasks args fuel
        (resolve_child_name name c) (stack ++ [name]) stdio))
      (Except.ok ExecOutcome.success, []) = _
  rw [foldl_seqFold_success_front _ pre (cf :: post) [] hpre, List.foldl_cons]
  rw [show seqFold (fun c => exec_task w root tasks args fuel
      (resolve_child_name name c) (stack ++ [name]) stdio)
      (Except.ok ExecOutcome.success,
        [] ++ (pre.map (fun c => (exec_task w root tasks args fuel
          (resolve_child_name name c) (stack ++ [name]) stdio).2)).flatten) cf =
      ((exec_task w root tasks args fuel (resolve_child_name name cf)
          (stack ++ [name]) stdio).1,
       ([] ++ (pre.map (fun c => (exec_task w root tasks args fuel
          (resolve_child_name name c) (stack ++ [name]) stdio).2)).flatten) ++
        (exec_task w root tasks args fuel (resolve_child_name name cf)
          (stack ++ [name]) stdio).2) from rfl]
  rw [hf]
  rw [foldl_seqFold_not_success _ _ post (by simp)]
  simp

/-- Task world for the C3 witness: `exit 3` fails with code 3, everything
else succeeds. -/
def WSeq : TaskWorld :=
  ⟨fun _ => true, fun cmd _ => if cmd = "exit 3" then some 3 else some 0⟩

/-- Task map for the C3 witness: `s` runs `x` (fails with 3) then `y`. -/
def TasksSeq : List (String × TaskConfig) :=
  [("s", ⟨.composite ["x", "y"] false⟩),
   ("s.x", ⟨.shell "exit 3" none⟩),
   ("s.y", ⟨.shell "echo ok" none⟩)]

/-- Witness for C3: `x` fails with exit code 3, the composite reports 3, and
`y`'s command is absent from the trace — it never executed. -/
theorem sequential_composite_stops_at_first_failure_witness :
    exec_task WSeq "/r" TasksSeq [] 5 "s" [] StdioMode.modeInherit =
      (Except.ok (ExecOutcome.failed 3), [⟨"exit 3", "/r"⟩]) := by
  have h := sequential_composite_stops_at_first_failure WSeq "/r" TasksSeq []
    4 "s" [] StdioMode.modeInherit [] "x" ["y"] 3 rfl (by decide)
    (by intro c hc; cases hc) rfl
  exact h.trans rfl

/-! ## Cycle detection (claim C5)

The claim as stated — *every* task graph containing a path from the
requested root back to itself fails with a cycle error — does not hold:
a sequential composite stops at the first failing child, so a cycle sitting
behind a failing earlier sibling is never reached and the request fails
with that child's exit code instead.  `cycle_error_counterexample` exhibits
this; `cycle_error_amended` proves the detection that the code does
perform: the moment execution reaches a task already on the call stack, it
fails with the cycle error rendering the full path. -/

/-- Task world for the C5 counterexample: every command exits with code 1. -/
def WCycCE : TaskWorld :=
  ⟨fun _ => true, fun _ _ => some 1⟩

/-- Task graph for the C5 counterexample: `ns.a → ns.a.x` (a failing shell
task), `ns.a → ns.b`, and `ns.b → ns.a` — so the graph contains the path
`ns.a → ns.b → ns.a` back to the requested root. -/
def TasksCycCE : List (String × TaskConfig) :=
  [("ns.a", ⟨.composite ["x", "ns.b"] false⟩),
   ("ns.a.x", ⟨.shell "false" none⟩),
   ("ns.b", ⟨.composite ["ns.a"] false⟩)]

/-- Counterexample to C5 as stated: the graph contains the path
`ns.a → ns.b → ns.a` (the first two conjuncts exhibit the two edges
resolving back to the root), yet requesting `ns.a` does **not** fail with a
dependency-cycle error — the first child `ns.a.x` fails with exit code 1,
sequential execution stops there, and the composite reports `failed 1`. -/
theorem cycle_error_counterexample :
    resolve_child_name "ns.a" "ns.b" = "ns.b" ∧
    resolve_child_name "ns.b" "ns.a" = "ns.a" ∧
    exec_task WCycCE "/r" TasksCycCE [] 10 "ns.a" [] StdioMode.modeInherit =
      (Except.ok (ExecOutcome.failed 1), [⟨"false", "/r"⟩]) :=
  ⟨rfl, rfl, rfl⟩

/-- Claim C5, amended: whenever execution actually reaches a task whose name
is already on the current call stack (in particular whenever a composite
child path leads back to a task being executed, before any earlier sibling
has failed), it fails immediately with a dependency-cycle error whose
message renders the full stack path in display form joined by `" -> "`, and
nothing is executed (empty trace) — a hard stop rather than a recursion. -/
theorem cycle_error_amended (w : TaskWorld) (root : String)
    (tasks : List (String × TaskConfig)) (args : List String) (fuel : Nat)
    (name : String) (stack : List String) (stdio : StdioMode)
    (cfg : TaskConfig) (hlook : lookupTask tasks name = some cfg)
    (hmem : name ∈ stack) :
    exec_task w root tasks args (fuel + 1) name stack stdio =
      (Except.error (cycleMessage (stack ++ [name])), []) := by
  show execTaskStep w root tasks args (exec_task w root tasks args fuel)
      name stack stdio = _
  unfold execTaskStep
  rw [hlook]
  simp only [if_pos hmem]

/-- Task graph for the C5 witness: `x.y` lists itself as a child (the child
reference `x.y` contains a dot, so it resolves absolutely to `x.y`). -/
def TasksCyc : List (String × TaskConfig) :=
  [("x.y", ⟨.composite ["x.y"] false⟩)]

/-- Witness for the amended C5: reaching `x.y` with `x.y` already on the
stack yields the cycle error naming the full path `x:y -> x:y` in display
form. -/
theorem cycle_error_amended_witness :
    exec_task WCycCE "/r" TasksCyc [] 2 "x.y" ["x.y"] StdioMode.modeInherit =
      (Except.error "Dependency cycle detected: x:y -> x:y", []) := by
  have h := cycle_error_amended WCycCE "/r" TasksCyc [] 1 "x.y" ["x.y"]
    StdioMode.modeInherit ⟨.composite ["x.y"] false⟩ rfl (by decide)
  exact h.trans rfl

/-! ## Unknown-task errors (claim C9) -/

theorem mem_insertSorted (a x : String) (l : List String) :
    a ∈ insertSorted x l ↔ a = x ∨ a ∈ l := by
  induction l with
  | nil => simp [insertSorted]
  | cons y ys ih =>
    unfold insertSorted
    by_cases h : strLt x y = true
    · simp [h]
    · simp only [Bool.not_eq_true] at h
      simp only [h, Bool.false_eq_true, if_false, List.mem_cons, ih]
      tauto

theorem mem_sortStrings (a : String) (l : List String) (h : a ∈ l) :
    a ∈ sortStrings l := by
  induction l with
  | nil => cases h
  | cons x xs ih =>
    unfold sortStrings
    rw [mem_insertSorted]
    rcases List.mem_cons.mp h with h | h
    · exact Or.inl h
    · exact Or.inr (ih h)

theorem sortStrings_ne_nil (l : List String) (h : l ≠ []) :
    sortStrings l ≠ [] := by
  cases l with
  | nil => exact absurd rfl h
  | cons x xs =>
    unfold sortStrings
    cases hs : sortStrings xs with
    | nil => simp [insertSorted]
    | cons y ys =>
      unfold insertSorted
      by_cases hlt : strLt x y = true <;> simp [hlt]

/-- Claim C9: looking up a task name that is not in the task map fails with
the unknown-task error.  The four conjuncts cover: (1) `exec_task` on an
unknown name errors with the message and executes nothing; (2) the message's
name list contains the display form of every defined task; (3) the
root-level `run_task` lookup on an unknown (normalized) query errors with
the same list; (4) a sequential composite whose first child resolves to the
unknown name propagates exactly that error. -/
theorem unknown_task_error_lists_names (w : TaskWorld) (root : String)
    (tasks : List (String × TaskConfig)) (args : List String) (fuel : Nat)
    (name : String) (stack : List String) (stdio : StdioMode)
    (h : lookupTask tasks name = none) :
    exec_task w root tasks args (fuel + 1) name stack stdio =
      (Except.error (unknownTaskMessage tasks name), []) ∧
    (∀ kv ∈ tasks, display_task_name kv.1 ∈ availableTaskNames tasks) ∧
    (∀ q, lookupTask tasks (normalize_task_query q) = none → tasks ≠ [] →
      run_task_lookup tasks q =
        Except.error ("Unknown task '" ++ q ++ "'. Available tasks: " ++
          String.intercalate ", " (availableTaskNames tasks))) ∧
    (∀ pname rest,
      lookupTask tasks pname = some ⟨.composite (name :: rest) false⟩ →
      pname ∉ stack → resolve_child_name pname name = name →
      exec_task w root tasks args (fuel + 2) pname stack stdio =
        (Except.error (unknownTaskMessage tasks name), [])) := by
  have hstep : ∀ stack2 stdio2,
      exec_task w root tasks args (fuel + 1) name stack2 stdio2 =
        (Except.error (unknownTaskMessage tasks name), []) := by
    intro stack2 stdio2
    show execTaskStep w root tasks args (exec_task w root tasks args fuel)
        name stack2 stdio2 = _
    unfold execTaskStep
    rw [h]
  refine ⟨hstep stack stdio, ?_, ?_, ?_⟩
  · intro kv hkv
    exact mem_sortStrings _ _
      (List.mem_map_of_mem (fun p => display_task_name p.1) hkv)
  · intro q hq hne
    have hav : availableTaskNames tasks ≠ [] := by
      apply sortStrings_ne_nil
      simp [hne]
    unfold run_task_lookup
    simp only [hq]
    cases hcase : availableTaskNames tasks with
    | nil => exact absurd hcase hav
    | cons a as => simp
  · intro pname rest hlook hpst hres
    show execTaskStep w root tasks args (exec_task w root tasks args (fuel + 1))
        pname stack stdio = _
    unfold execTaskStep
    rw [hlook]
    simp only [if_neg hpst]
    show (name :: rest).foldl
        (seqFold (fun c => exec_task w root tasks args (fuel + 1)
          (resolve_child_name pname c) (stack ++ [pname]) stdio))
        (Except.ok ExecOutcome.success, []) = _
    rw [List.foldl_cons]
    rw [show seqFold (fun c => exec_task w root tasks args (fuel + 1)
        (resolve_child_name pname c) (stack ++ [pname]) stdio)
        (Except.ok ExecOutcome.success, []) name =
        ((exec_task w root tasks args (fuel + 1)
            (resolve_child_name pname name) (stack ++ [pname]) stdio).1,
         [] ++ (exec_task w root tasks args (fuel + 1)
            (resolve_child_name pname name) (stack ++ [pname]) stdio).2)
      from rfl]
    rw [hres, hstep (stack ++ [pname]) stdio]
    rw [foldl_seqFold_not_success _ _ rest (by simp)]
    rfl

/-- Task world for the C9 witness. -/
def WUnk : TaskWorld :=
  ⟨fun _ => true, fun _ _ => some 0⟩

/-- Task map for the C9 witness: two defined tasks, `a.b` and `par`. -/
def TasksUnk : List (String × TaskConfig) :=
  [("a.b", ⟨.shell "echo hi" none⟩),
   ("par", ⟨.composite ["a.b"] true⟩)]

/-- Witness for C9: requesting the undefined `zz.q` (directly or as the
normalized root query `zz:q`) errors with a message listing both defined
task names in display form. -/
theorem unknown_task_error_lists_names_witness :
    exec_task WUnk "/r" TasksUnk [] 3 "zz.q" [] StdioMode.modeInherit =
      (Except.error "Unknown task 'zz:q'. Available tasks: a:b, par", []) ∧
    run_task_lookup TasksUnk "zz:q" =
      Except.error "Unknown task 'zz:q'. Available tasks: a:b, par" := by
  obtain ⟨h1, h2, h3, h4⟩ := unknown_task_error_lists_names WUnk "/r" TasksUnk
    [] 2 "zz.q" [] StdioMode.modeInherit rfl
  have hs : unknownTaskMessage TasksUnk "zz.q" =
      "Unknown task 'zz:q'. Available tasks: a:b, par" := by decide
  have hs2 : "Unknown task '" ++ "zz:q" ++ "'. Available tasks: " ++
      String.intercalate ", " (availableTaskNames TasksUnk) =
      "Unknown task 'zz:q'. Available tasks: a:b, par" := by decide
  constructor
  · rw [h1, hs]
  · rw [h3 "zz:q" (by decide) (by decide), hs2]

/-! ## Backward tail reader, from `src/manager.rs` `tail_last_lines` (claim C1)

File contents are byte lists (`List Nat`, newline = 10) and lines are byte
lists; `String::from_utf8_lossy` never creates or removes `0x0A` bytes, so
the line structure of the Rust code is exactly the byte-level split. -/

/-- Rust `str::split('\n')` at the byte level: splitting the empty content
yields one empty piece, and every newline byte starts a new piece. -/
def splitNl : List Nat → List (List Nat)
  | [] => [[]]
  | b :: rest =>
    if b = 10 then [] :: splitNl rest
    else
      match splitNl rest with
      | [] => [[b]]
      | l :: ls => (b :: l) :: ls

/-- `bytecount::count(buf, b'\n')`. -/
def countNl : List Nat → Nat
  | [] => 0
  | b :: rest => (if b = 10 then 1 else 0) + countNl rest

/-- The `lines_vec.last().is_empty()` pop in `tail_last_lines`: drop a
trailing empty piece (produced by a final newline). -/
def dropTrailingEmptyLine (ls : List (List Nat)) : List (List Nat) :=
  if ls.getLast? = some [] then ls.dropLast else ls

/-- The last `n` elements of a list (all of them when `n` exceeds the
length) — the specification's "take the last `n` lines". -/
def takeLast (ls : List (List Nat)) (n : Nat) : List (List Nat) :=
  ls.drop (ls.length - n)

/-- The final slice in `tail_last_lines`:
`if lines_vec.len() > n { lines_vec[len - n ..] } else { lines_vec }`. -/
def lastN (ls : List (List Nat)) (n : Nat) : List (List Nat) :=
  if ls.length > n then ls.drop (ls.length - n) else ls

/-- The backward chunk loop of `tail_last_lines`, tracking
`remaining = file_size - read_size`; the accumulated buffer after the loop
is `file.drop remaining'` where `remaining'` is the returned value.  Each
iteration reads `min 8192 remaining` more bytes from the end and stops once
the buffer holds more than `n` newlines or the file start was reached.
`remaining` strictly decreases every iteration, so a structural counter
starting at `remaining` (see `tailRemaining`) bounds the loop. -/
def tailRemainingGo (file : List Nat) (n : Nat) : Nat → Nat → Nat
  | 0, _ => 0
  | fuel + 1, remaining =>
    if remaining = 0 then 0
    else
      if n < countNl (file.drop (remaining - min 8192 remaining)) then
        remaining - min 8192 remaining
      else if remaining - min 8192 remaining = 0 then 0
      else tailRemainingGo file n fuel (remaining - min 8192 remaining)

/-- The chunk loop, entered with `remaining = file_size`. -/
def tailRemaining (file : List Nat) (n : Nat) (remaining : Nat) : Nat :=
  tailRemainingGo file n remaining remaining

/-- `manager.rs` `tail_last_lines` on the file's byte content: read backward
in 8 KiB chunks until the buffer holds more than `n` newlines (or the whole
file), split the buffer on newlines, pop a trailing empty line, and keep the
last `n` pieces. -/
def tail_last_lines (file : List Nat) (n : Nat) : List (List Nat) :=
  lastN (dropTrailingEmptyLine (splitNl (file.drop (tailRemaining file n file.length)))) n

/-- The specification's description of the result: split the *entire* file
content on newline, drop a trailing empty element produced by a final
newline, and take the last `n` lines (all lines when `n` exceeds the line
count). -/
def tailSpec (file : List Nat) (n : Nat) : List (List Nat) :=
  takeLast (dropTrailingEmptyLine (splitNl file)) n

theorem splitNl_ne_nil (l : List Nat) : splitNl l ≠ [] := by
  cases l with
  | nil => simp [splitNl]
  | cons b rest =>
    unfold splitNl
    by_cases hb : b = 10
    · simp [hb]
    · simp only [hb, if_false]
      cases splitNl rest <;> simp

theorem length_splitNl (l : List Nat) : (splitNl l).length = countNl l + 1 := by
  induction l with
  | nil => rfl
  | cons b rest ih =>
    unfold splitNl countNl
    by_cases hb : b = 10
    · simp [hb, ih, Nat.add_comm]
    · simp only [hb, if_false]
      cases hs : splitNl rest with
      | nil => exact absurd hs (splitNl_ne_nil rest)
      | cons L Ls =>
        rw [hs] at ih
        simp only [List.length_cons] at ih ⊢
        omega

theorem dropTrailingEmptyLine_cons (x : List Nat) (L : List (List Nat))
    (h : L ≠ []) :
    dropTrailingEmptyLine (x :: L) = x :: dropTrailingEmptyLine L := by
  obtain ⟨y, ys, rfl⟩ := List.exists_cons_of_ne_nil h
  unfold dropTrailingEmptyLine
  rw [List.getLast?_cons_cons]
  by_cases hc : (y :: ys).getLast? = some []
  · simp [hc]
  · simp [hc]

theorem length_dropTrailingEmptyLine_ge (L : List (List Nat)) :
    L.length - 1 ≤ (dropTrailingEmptyLine L).length := by
  unfold dropTrailingEmptyLine
  split
  · simp [List.length_dropLast]
  · exact Nat.sub_le _ _

theorem lastN_eq_takeLast (ls : List (List Nat)) (n : Nat) :
    lastN ls n = takeLast ls n := by
  unfold lastN takeLast
  split
  · rfl
  · next h => rw [show ls.length - n = 0 by omega, List.drop_zero]

theorem countNl_suffix_le (S l : List Nat) (h : S <:+ l) :
    countNl S ≤ countNl l := by
  induction l with
  | nil => rw [List.suffix_nil.mp h]
  | cons b rest ih =>
    rcases List.suffix_cons_iff.mp h with h | h
    · rw [h]
    · have hih := ih h
      have hc : countNl (b :: rest) = (if b = 10 then 1 else 0) + countNl rest := rfl
      rw [hc]
      omega

theorem procLines_cons (b : Nat) (rest : List Nat) (n : Nat)
    (h : n + 1 ≤ countNl rest) :
    takeLast (dropTrailingEmptyLine (splitNl (b :: rest))) n =
      takeLast (dropTrailingEmptyLine (splitNl rest)) n := by
  have hL : splitNl rest ≠ [] := splitNl_ne_nil rest
  by_cases hb : b = 10
  · have hsplit : splitNl (b :: rest) = [] :: splitNl rest := by
      subst hb
      rfl
    rw [hsplit, dropTrailingEmptyLine_cons _ _ hL]
    have hlen : countNl rest ≤ (dropTrailingEmptyLine (splitNl rest)).length := by
      have h1 := length_dropTrailingEmptyLine_ge (splitNl rest)
      have h2 := length_splitNl rest
      omega
    unfold takeLast
    rw [List.length_cons]
    rw [show (dropTrailingEmptyLine (splitNl rest)).length + 1 - n =
        ((dropTrailingEmptyLine (splitNl rest)).length - n) + 1 by omega]
    rw [List.drop_succ_cons]
  · obtain ⟨L0, Ls, hs⟩ := List.exists_cons_of_ne_nil hL
    have hsplit : splitNl (b :: rest) = (b :: L0) :: Ls := by
      rw [show splitNl (b :: rest) =
          if b = 10 then [] :: splitNl rest
          else
            match splitNl rest with
            | [] => [[b]]
            | l :: ls => (b :: l) :: ls
        from rfl]
      rw [if_neg hb, hs]
    have hlenLs : Ls.length + 1 = countNl rest + 1 := by
      have h2 := length_splitNl rest
      rw [hs] at h2
      simpa using h2
    have hLs : Ls ≠ [] := by
      intro hnil
      rw [hnil] at hlenLs
      simp at hlenLs
      omega
    rw [hsplit, hs, dropTrailingEmptyLine_cons _ _ hLs,
      dropTrailingEmptyLine_cons _ _ hLs]
    have hm : n ≤ (dropTrailingEmptyLine Ls).length := by
      have h1 := length_dropTrailingEmptyLine_ge Ls
      omega
    unfold takeLast
    rw [List.length_cons, List.length_cons]
    rw [show (dropTrailingEmptyLine Ls).length + 1 - n =
        ((dropTrailingEmptyLine Ls).length - n) + 1 by omega]
    rw [List.drop_succ_cons, List.drop_succ_cons]

theorem procLines_suffix (S l : List Nat) (n : Nat) (hsuf : S <:+ l)
    (hcount : n + 1 ≤ countNl S) :
    takeLast (dropTrailingEmptyLine (splitNl S)) n =
      takeLast (dropTrailingEmptyLine (splitNl l)) n := by
  induction l with
  | nil => rw [List.suffix_nil.mp hsuf]
  | cons b rest ih =>
    rcases List.suffix_cons_iff.mp hsuf with h | h
    · rw [h]
    · rw [ih h]
      exact (procLines_cons b rest n
        (le_trans hcount (countNl_suffix_le S rest h))).symm

theorem tailRemainingGo_spec (file : List Nat) (n : Nat) :
    ∀ fuel remaining, remaining ≤ fuel →
      tailRemainingGo file n fuel remaining = 0 ∨
        n + 1 ≤ countNl (file.drop (tailRemainingGo file n fuel remaining)) := by
  intro fuel
  induction fuel with
  | zero =>
    intro remaining _
    exact Or.inl rfl
  | succ fuel ih =>
    intro remaining hle
    have hunf : tailRemainingGo file n (fuel + 1) remaining =
        if remaining = 0 then 0
        else
          if n < countNl (file.drop (remaining - min 8192 remaining)) then
            remaining - min 8192 remaining
          else if remaining - min 8192 remaining = 0 then 0
          else tailRemainingGo file n fuel (remaining - min 8192 remaining) := rfl
    rw [hunf]
    split
    · exact Or.inl rfl
    · next h =>
      split
      · next hcount => exact Or.inr (by omega)
      · split
        · exact Or.inl rfl
        · next h2 => exact ih (remaining - min 8192 remaining) (by omega)

theorem tailRemaining_spec (file : List Nat) (n : Nat) (r : Nat) :
    tailRemaining file n r = 0 ∨
      n + 1 ≤ countNl (file.drop (tailRemaining file n r)) :=
  tailRemainingGo_spec file n r r (le_refl r)

/-- Claim C1: for every file content and every `n`, `tail_last_lines`
returns exactly the lines obtained by splitting the entire file on newline,
dropping a trailing empty element produced by a final newline, and taking
the last `n` lines — for files smaller and larger than the 8 KiB chunk, and
returning all lines when `n` exceeds the line count (`tailSpec` keeps the
whole list in that case). -/
theorem tail_last_lines_matches_spec (file : List Nat) (n : Nat) :
    tail_last_lines file n = tailSpec file n := by
  unfold tail_last_lines tailSpec
  rw [lastN_eq_takeLast]
  rcases tailRemaining_spec file n file.length with h | h
  · rw [h, List.drop_zero]
  · exact procLines_suffix _ _ n (List.drop_suffix _ _) h

/-! ## State persistence, from `src/state.rs` and `src/dirs.rs` (claims C6, C7)

`ManagerState` is serialized with `serde_json` and `chrono`; JSON documents
are modelled as `Json` values (the byte rendering and re-parsing are the
external library's concern) and `DateTime<Utc>` timestamps as their RFC 3339
renderings, which chrono round-trips exactly. -/

/-- `state.rs` `ManagerInfo` (`pid: u32`, `started_at: DateTime<Utc>`
modelled as its RFC 3339 string, `project_root`, `version: u32`). -/
structure ManagerInfo where
  pid : Nat
  started_at : String
  project_root : String
  version : Nat
deriving DecidableEq

/-- `state.rs` `ProcessInfo`. -/
structure ProcessInfo where
  name : String
  pid : Nat
  pgid : Int
  cmd : String
  cwd : Option String
  stdout_log : String
  stderr_log : String
  started_at : String
deriving DecidableEq

/-- `state.rs` `ManagerState`. -/
structure ManagerState where
  manager : ManagerInfo
  processes : List ProcessInfo
deriving DecidableEq

/-- JSON documents, as produced by `serde_json`. -/
inductive Json where
  | null
  | str (s : String)
  | num (n : Int)
  | arr (xs : List Json)
  | obj (fields : List (String × Json))

/-- Field access in a JSON object (serde is order-independent). -/
def jsonLookup : List (String × Json) → String → Option Json
  | [], _ => none
  | kv :: rest, k => if kv.1 = k then some kv.2 else jsonLookup rest k

/-- serde serialization of `ManagerInfo` (derived `Serialize`: one object
field per struct field). -/
def encodeManagerInfo (m : ManagerInfo) : Json :=
  .obj [("pid", .num (Int.ofNat m.pid)), ("started_at", .str m.started_at),
        ("project_root", .str m.project_root), ("version", .num (Int.ofNat m.version))]

/-- serde serialization of an optional string (`None` is `null`). -/
def encodeOptString : Option String → Json
  | none => .null
  | some s => .str s

/-- serde serialization of `ProcessInfo`. -/
def encodeProcessInfo (p : ProcessInfo) : Json :=
  .obj [("name", .str p.name), ("pid", .num (Int.ofNat p.pid)),
        ("pgid", .num p.pgid), ("cmd", .str p.cmd),
        ("cwd", encodeOptString p.cwd), ("stdout_log", .str p.stdout_log),
        ("stderr_log", .str p.stderr_log), ("started_at", .str p.started_at)]

/-- serde serialization of `ManagerState`. -/
def encodeManagerState (st : ManagerState) : Json :=
  .obj [("manager", encodeManagerInfo st.manager),
        ("processes", .arr (st.processes.map encodeProcessInfo))]

/-- serde deserialization of a string field. -/
def decodeString : Json → Option String
  | .str s => some s
  | _ => none

/-- serde deserialization of a `u32` field (rejects negatives). -/
def decodeNat : Json → Option Nat
  | .num (Int.ofNat k) => some k
  | _ => none

/-- serde deserialization of an `i32` field. -/
def decodeInt : Json → Option Int
  | .num i => some i
  | _ => none

/-- serde deserialization of an `Option<String>` field. -/
def decodeOptString : Json → Option (Option String)
  | .null => some none
  | .str s => some (some s)
  | _ => none

/-- serde deserialization of `ManagerInfo`. -/
def decodeManagerInfo (j : Json) : Option ManagerInfo :=
  match j with
  | .obj fields => do
    let pid ← jsonLookup fields "pid" >>= decodeNat
    let started_at ← jsonLookup fields "started_at" >>= decodeString
    let project_root ← jsonLookup fields "project_root" >>= decodeString
    let version ← jsonLookup fields "version" >>= decodeNat
    pure ⟨pid, started_at, project_root, version⟩
  | _ => none

/-- serde deserialization of `ProcessInfo`. -/
def decodeProcessInfo (j : Json) : Option ProcessInfo :=
  match j with
  | .obj fields => do
    let name ← jsonLookup fields "name" >>= decodeString
    let pid ← jsonLookup fields "pid" >>= decodeNat
    let pgid ← jsonLookup fields "pgid" >>= decodeInt
    let cmd ← jsonLookup fields "cmd" >>= decodeString
    let cwd ← jsonLookup fields "cwd" >>= decodeOptString
    let stdout_log ← jsonLookup fields "stdout_log" >>= decodeString
    let stderr_log ← jsonLookup fields "stderr_log" >>= decodeString
    let started_at ← jsonLookup fields "started_at" >>= decodeString
    pure ⟨name, pid, pgid, cmd, cwd, stdout_log, stderr_log, started_at⟩
  | _ => none

/-- serde deserialization of a `Vec<ProcessInfo>`. -/
def decodeProcessList : List Json → Option (List ProcessInfo)
  | [] => some []
  | j :: rest => do
    let p ← decodeProcessInfo j
    let ps ← decodeProcessList rest
    pure (p :: ps)

/-- serde deserialization of `ManagerState`. -/
def decodeManagerState (j : Json) : Option ManagerState :=
  match j with
  | .obj fields => do
    let mj ← jsonLookup fields "manager"
    let manager ← decodeManagerInfo mj
    let pj ← jsonLookup fields "processes"
    match pj with
    | .arr xs => do
      let processes ← decodeProcessList xs
      pure ⟨manager, processes⟩
    | _ => none
  | _ => none

/-- A file on disk is either a completely serialized JSON document or an
incompletely written one (a reader of an `incomplete` file gets a
deserialization failure). -/
inductive FileData where
  | incomplete
  | complete (j : Json)

/-- The per-project state directory as a map from paths to file data. -/
def FS : Type := String → Option FileData

/-- Write (create or truncate-and-replace) a file. -/
def fsWrite (fs : FS) (p : String) (d : FileData) : FS :=
  fun q => if q = p then some d else fs q

/-- The filesystem operations `save_state` performs, in order. -/
inductive FsOp where
  | createDirAll (dir : String)
  | createFile (path : String)
  | writeAll (path : String) (j : Json)
  | flushFile (path : String)
  | renameFile (src dst : String)

/-- Effect of one filesystem operation.  `createFile` truncates to an
incompletely-written file; `writeAll` completes the serialization;
`renameFile` atomically moves the source over the destination. -/
def applyOp (fs : FS) : FsOp → FS
  | .createDirAll _ => fs
  | .createFile p => fsWrite fs p .incomplete
  | .writeAll p j => fsWrite fs p (.complete j)
  | .flushFile _ => fs
  | .renameFile src dst => fun q =>
    if q = dst then fs src
    else if q = src then none
    else fs q

/-- `dirs.rs` `project_id`: a stable 12-hex-digit blake3 digest of the
canonicalized project path.  Only its determinism is observable here, so the
path itself stands in for the digest. -/
def project_id (root : String) : String :=
  root

/-- `dirs.rs` `xdg_state_home`, held abstract as a constant prefix. -/
def xdg_state_home : String :=
  "/xdg-state"

/-- `dirs.rs` `state_dir_for_project`. -/
def state_dir_for_project (root : String) : String :=
  xdg_state_home ++ "/oxproc/" ++ project_id root

/-- `state.rs` `state_dir_from_root`. -/
def state_dir_from_root (root : String) : String :=
  state_dir_for_project root

/-- `state.rs` `state_file_path`. -/
def state_file_path (dir : String) : String :=
  dir ++ "/state.json"

/-- `state.rs` `manager_pid_path`. -/
def manager_pid_path (dir : String) : String :=
  dir ++ "/manager.pid"

/-- `state.rs` `manager_lock_path`. -/
def manager_lock_path (dir : String) : String :=
  dir ++ "/manager.lock"

/-- `state.rs` `save_state` as its sequence of filesystem operations:
create the directory, create `state.json.tmp` in the same directory, write
the whole serialized state into it, flush, and atomically rename it over
`state.json`. -/
def saveStateOps (dir : String) (st : ManagerState) : List FsOp :=
  [.createDirAll dir,
   .createFile (dir ++ "/state.json.tmp"),
   .writeAll (dir ++ "/state.json.tmp") (encodeManagerState st),
   .flushFile (dir ++ "/state.json.tmp"),
   .renameFile (dir ++ "/state.json.tmp") (state_file_path dir)]

/-- `state.rs` `save_state`: the filesystem after the operation sequence. -/
def save_state (fs : FS) (dir : String) (st : ManagerState) : FS :=
  (saveStateOps dir st).foldl applyOp fs

/-- `state.rs` `load_state_from_root`: read and deserialize `state.json` in
the project's state directory; a missing file is a read error and an
incomplete or non-deserializable document is a deserialization error (both
surface as `Err` to callers). -/
def load_state_from_root (fs : FS) (root : String) : Except String ManagerState :=
  match fs (state_file_path (state_dir_from_root root)) with
  | none => Except.error "read failed"
  | some .incomplete => Except.error "deserialize failed"
  | some (.complete j) =>
    match decodeManagerState j with
    | none => Except.error "deserialize failed"
    | some st => Except.ok st

theorem decodeManagerInfo_encode (m : ManagerInfo) :
    decodeManagerInfo (encodeManagerInfo m) = some m := by
  cases m
  rfl

theorem decodeProcessInfo_encode (p : ProcessInfo) :
    decodeProcessInfo (encodeProcessInfo p) = some p := by
  obtain ⟨name, pid, pgid, cmd, cwd, so, se, at0⟩ := p
  cases cwd <;> rfl

theorem decodeProcessList_encode (ps : List ProcessInfo) :
    decodeProcessList (ps.map encodeProcessInfo) = some ps := by
  induction ps with
  | nil => rfl
  | cons p rest ih =>
    show (do
      let q ← decodeProcessInfo (encodeProcessInfo p)
      let qs ← decodeProcessList (rest.map encodeProcessInfo)
      pure (q :: qs)) = some (p :: rest)
    rw [decodeProcessInfo_encode, ih]
    rfl

theorem decodeManagerState_encode (st : ManagerState) :
    decodeManagerState (encodeManagerState st) = some st := by
  obtain ⟨m, ps⟩ := st
  show (decodeProcessList (ps.map encodeProcessInfo)).bind
      (fun processes => some (⟨m, processes⟩ : ManagerState)) = some ⟨m, ps⟩
  rw [decodeProcessList_encode]
  rfl

theorem append_ne_of_ne (d a b : String) (h : a ≠ b) : d ++ a ≠ d ++ b := by
  intro he
  apply h
  have hdata : (d ++ a).data = (d ++ b).data := congrArg String.data he
  rw [String.data_append, String.data_append] at hdata
  exact String.ext (List.append_cancel_left hdata)

theorem fs_after_save (fs : FS) (dir : String) (st : ManagerState) (q : String) :
    save_state fs dir st q =
      if q = state_file_path dir then
        some (FileData.complete (encodeManagerState st))
      else if q = dir ++ "/state.json.tmp" then none
      else fs q := by
  show (if q = state_file_path dir then
      fsWrite (fsWrite fs (dir ++ "/state.json.tmp") FileData.incomplete)
        (dir ++ "/state.json.tmp") (FileData.complete (encodeManagerState st))
        (dir ++ "/state.json.tmp")
    else if q = dir ++ "/state.json.tmp" then none
    else fsWrite (fsWrite fs (dir ++ "/state.json.tmp") FileData.incomplete)
        (dir ++ "/state.json.tmp") (FileData.complete (encodeManagerState st)) q) = _
  simp only [fsWrite]
  split
  · simp
  · split
    · rfl
    · rfl

/-- Claim C6: `save_state` followed by `load_state_from_root` reproduces any
`ManagerState` exactly (first conjunct), and after every prefix of the
operations `save_state` performs, the canonical `state.json` path holds
either its previous content or the new, completely serialized state — a
reader never observes the in-progress temporary write (second conjunct). -/
theorem save_load_round_trip_atomic (fs : FS) (root : String)
    (st : ManagerState) :
    load_state_from_root (save_state fs (state_dir_from_root root) st) root =
      Except.ok st ∧
    ∀ k, (((saveStateOps (state_dir_from_root root) st).take k).foldl applyOp fs)
        (state_file_path (state_dir_from_root root)) =
        fs (state_file_path (state_dir_from_root root)) ∨
      (((saveStateOps (state_dir_from_root root) st).take k).foldl applyOp fs)
        (state_file_path (state_dir_from_root root)) =
        some (FileData.complete (encodeManagerState st)) := by
  have hne : state_file_path (state_dir_from_root root) ≠
      state_dir_from_root root ++ "/state.json.tmp" :=
    append_ne_of_ne (state_dir_from_root root) "/state.json" "/state.json.tmp"
      (by decide)
  constructor
  · unfold load_state_from_root
    rw [fs_after_save, if_pos rfl]
    simp [decodeManagerState_encode]
  · intro k
    match k with
    | 0 => exact Or.inl rfl
    | 1 => exact Or.inl rfl
    | 2 =>
      left
      show fsWrite fs (state_dir_from_root root ++ "/state.json.tmp")
        FileData.incomplete (state_file_path (state_dir_from_root root)) = _
      simp only [fsWrite]
      rw [if_neg hne]
    | 3 =>
      left
      show fsWrite (fsWrite fs (state_dir_from_root root ++ "/state.json.tmp")
          FileData.incomplete) (state_dir_from_root root ++ "/state.json.tmp")
        (FileData.complete (encodeManagerState st))
        (state_file_path (state_dir_from_root root)) = _
      simp only [fsWrite]
      rw [if_neg hne, if_neg hne]
    | 4 =>
      left
      show fsWrite (fsWrite fs (state_dir_from_root root ++ "/state.json.tmp")
          FileData.incomplete) (state_dir_from_root root ++ "/state.json.tmp")
        (FileData.complete (encodeManagerState st))
        (state_file_path (state_dir_from_root root)) = _
      simp only [fsWrite]
      rw [if_neg hne, if_neg hne]
    | (j + 5) =>
      right
      rw [List.take_of_length_le (by simp [saveStateOps])]
      show save_state fs (state_dir_from_root root) st
        (state_file_path (state_dir_from_root root)) = _
      rw [fs_after_save, if_pos rfl]

/-! ## Stop without daemon state, from `src/manager.rs` `stop_all` (claim C7) -/

/-- The OS as seen by `stop_all`: pid liveness probes (`kill(pid, 0)`) and
whether a group signal delivery succeeds. -/
structure StopWorld where
  alive : Nat → Bool
  signalOk : Int → Bool

/-- The observable actions of `stop_all`, in order. -/
inductive StopEvent where
  | printed (msg : String)
  | sigtermGroup (pgid : Int) (ok : Bool)
  | sleptSecs (secs : Nat)
  | sigkillGroup (pgid : Int)
  | sigtermPid (pid : Nat)
  | sleptMs (ms : Nat)
  | sigkillPid (pid : Nat)
  | removedFile (path : String)
deriving DecidableEq

/-- Remove a file from the filesystem. -/
def fsRemove (fs : FS) (p : String) : FS :=
  fun q => if q = p then none else fs q

/-- `manager.rs` `stop_all`: when `load_state_from_root` fails (missing or
corrupt state file), print the no-daemon-state report and return `Ok`
without touching anything.  Otherwise: SIGTERM every process group, sleep
the grace period, SIGKILL the groups whose recorded pid is still alive,
terminate the manager pid (graceful, then forceful after a short wait if
still alive), and remove the pid and lock files when present. -/
def stop_all (w : StopWorld) (fs : FS) (root : String) (grace : Nat) :
    Except String Unit × List StopEvent × FS :=
  match load_state_from_root fs root with
  | .error _ =>
    (Except.ok (), [.printed "No daemon state found for this project."], fs)
  | .ok st =>
    let evs :=
      [StopEvent.printed ("Stopping " ++ toString st.processes.length ++
        " process(es) (manager PID " ++ toString st.manager.pid ++ ")...")] ++
      st.processes.map (fun p => StopEvent.sigtermGroup p.pgid (w.signalOk p.pgid)) ++
      [StopEvent.sleptSecs grace] ++
      (st.processes.filter (fun p => w.alive p.pid)).map
        (fun p => StopEvent.sigkillGroup p.pgid) ++
      [StopEvent.sigtermPid st.manager.pid, StopEvent.sleptMs 300] ++
      (if w.alive st.manager.pid then [StopEvent.sigkillPid st.manager.pid] else [])
    let dir := state_dir_from_root root
    let fs1 := if (fs (manager_pid_path dir)).isSome then
        fsRemove fs (manager_pid_path dir)
      else fs
    let evs1 := if (fs (manager_pid_path dir)).isSome then
        [StopEvent.removedFile (manager_pid_path dir)]
      else []
    let fs2 := if (fs1 (manager_lock_path dir)).isSome then
        fsRemove fs1 (manager_lock_path dir)
      else fs1
    let evs2 := if (fs1 (manager_lock_path dir)).isSome then
        [StopEvent.removedFile (manager_lock_path dir)]
      else []
    (Except.ok (),
     evs ++ evs1 ++ evs2 ++ [StopEvent.printed "Stop complete."], fs2)

/-- Claim C7: when no state file exists for the project (or it cannot be
deserialized), `stop` reports that there is no daemon state and returns
success, leaving the filesystem untouched; running it a second time
therefore behaves identically, so stopping twice in a row is safe. -/
theorem stop_without_state_is_ok (w : StopWorld) (fs : FS) (root : String)
    (grace : Nat) (e : String)
    (h : load_state_from_root fs root = Except.error e) :
    stop_all w fs root grace =
      (Except.ok (), [.printed "No daemon state found for this project."], fs) ∧
    stop_all w (stop_all w fs root grace).2.2 root grace =
      (Except.ok (), [.printed "No daemon state found for this project."], fs) := by
  have h1 : stop_all w fs root grace =
      (Except.ok (), [.printed "No daemon state found for this project."], fs) := by
    unfold stop_all
    rw [h]
  refine ⟨h1, ?_⟩
  rw [h1]
  exact h1

/-- Witness for C7: the empty filesystem (no state file at all). -/
theorem stop_without_state_is_ok_witness :
    stop_all ⟨fun _ => false, fun _ => false⟩ (fun _ => none) "/proj" 5 =
      (Except.ok (), [.printed "No daemon state found for this project."],
       fun _ => none) ∧
    stop_all ⟨fun _ => false, fun _ => false⟩
      (stop_all ⟨fun _ => false, fun _ => false⟩ (fun _ => none) "/proj" 5).2.2
      "/proj" 5 =
      (Except.ok (), [.printed "No daemon state found for this project."],
       fun _ => none) :=
  stop_without_state_is_ok ⟨fun _ => false, fun _ => false⟩ (fun _ => none)
    "/proj" 5 "read failed" rfl

/-! ## Supervisor startup, from `src/manager.rs` `run_manager_daemon` (claim C4)

The claim says a bad `cwd` aborts startup "before any process is spawned".
The code checks each spec's `cwd` inside the spawn loop, after the previous
specs' processes have already been spawned, so the claim only holds for the
offending spec itself: `cwd_validation_counterexample` shows a process
spawned before the failure, and `cwd_validation_amended` proves what the
code guarantees — the offending process is never spawned, later specs are
never reached, and no `ManagerState` is persisted. -/

/-- `config.rs` `ProcessConfig`. -/
structure ProcessConfig where
  name : String
  command : String
  stdout_log : Option String
  stderr_log : Option String
  cwd : Option String
deriving DecidableEq

/-- The observable actions of the supervisor startup loop: spawning a
process (with its resolved cwd) and persisting the `ManagerState`. -/
inductive MgrEvent where
  | spawned (name : String) (cmd : String) (cwd : Option String)
  | savedState (dir : String)
deriving DecidableEq

/-- The per-spec loop of `run_manager_daemon`: resolve the declared `cwd`
against the project root; if it does not exist, return the descriptive
error (naming the process and the resolved absolute path) without spawning
this or any later process; otherwise spawn and continue. -/
def spawnLoop (w : TaskWorld) (root : String) :
    List ProcessConfig → Except String Unit × List MgrEvent
  | [] => (Except.ok (), [])
  | c :: rest =>
    match c.cwd with
    | some d =>
      let abs := resolvePath root d
      if w.dirExists abs then
        let r := spawnLoop w root rest
        (r.1, .spawned c.name c.command (some abs) :: r.2)
      else
        (Except.error ("Process '" ++ c.name ++ "' cwd does not exist: " ++ abs), [])
    | none =>
      let r := spawnLoop w root rest
      (r.1, .spawned c.name c.command none :: r.2)

/-- The startup phase of `manager.rs` `run_manager_daemon`: run the spawn
loop over all configured processes and, only when every spec succeeded,
persist one `ManagerState` (the "ready" signal). -/
def run_manager_daemon_startup (w : TaskWorld) (configs : List ProcessConfig)
    (stateDir root : String) : Except String Unit × List MgrEvent :=
  let r := spawnLoop w root configs
  match r.1 with
  | .error e => (Except.error e, r.2)
  | .ok () => (Except.ok (), r.2 ++ [.savedState stateDir])

/-- A spec's declared cwd exists after resolution (or it declares none). -/
def cwdOkConfig (w : TaskWorld) (root : String) (c : ProcessConfig) : Bool :=
  match c.cwd with
  | none => true
  | some d => w.dirExists (resolvePath root d)

/-- The spawn event the loop records for a spec whose cwd check passed. -/
def spawnEvent (root : String) (c : ProcessConfig) : MgrEvent :=
  .spawned c.name c.command (c.cwd.map (resolvePath root))

theorem spawnLoop_stops_at_bad_cwd (w : TaskWorld) (root : String)
    (pre : List ProcessConfig) (bad : ProcessConfig)
    (post : List ProcessConfig) (d : String)
    (hpre : ∀ c ∈ pre, cwdOkConfig w root c = true)
    (hbad : bad.cwd = some d)
    (hmiss : w.dirExists (resolvePath root d) = false) :
    spawnLoop w root (pre ++ bad :: post) =
      (Except.error ("Process '" ++ bad.name ++ "' cwd does not exist: " ++
        resolvePath root d),
       pre.map (spawnEvent root)) := by
  induction pre with
  | nil =>
    show spawnLoop w root (bad :: post) = _
    unfold spawnLoop
    rw [hbad]
    simp only [hmiss, Bool.false_eq_true, if_false]
    rfl
  | cons c rest ih =>
    have hc : cwdOkConfig w root c = true := hpre c (List.mem_cons_self c rest)
    have hrest : ∀ x ∈ rest, cwdOkConfig w root x = true :=
      fun x hx => hpre x (List.mem_cons_of_mem c hx)
    show spawnLoop w root (c :: (rest ++ bad :: post)) = _
    unfold spawnLoop
    unfold cwdOkConfig at hc
    match hcwd : c.cwd with
    | some dc =>
      have hc2 : w.dirExists (resolvePath root dc) = true := by
        rw [hcwd] at hc
        exact hc
      simp only [hcwd, hc2, if_true, ih hrest]
      simp [spawnEvent, hcwd]
    | none =>
      simp only [hcwd, ih hrest]
      simp [spawnEvent, hcwd]

/-- Claim C4, amended: when some spec declares a cwd that does not exist
after resolution (and the specs before it pass the check), supervisor
startup fails with an error naming the offending process and the resolved
absolute path; the offending process and everything after it are never
spawned and no `ManagerState` is ever persisted — but the specs *before*
the offending one have already been spawned by then.  A shell task with a
nonexistent cwd fails the same way before its command is executed (second
conjunct, with an empty trace). -/
theorem cwd_validation_amended (w : TaskWorld) (root stateDir : String)
    (pre : List ProcessConfig) (bad : ProcessConfig)
    (post : List ProcessConfig) (d : String)
    (hpre : ∀ c ∈ pre, cwdOkConfig w root c = true)
    (hbad : bad.cwd = some d)
    (hmiss : w.dirExists (resolvePath root d) = false) :
    run_manager_daemon_startup w (pre ++ bad :: post) stateDir root =
      (Except.error ("Process '" ++ bad.name ++ "' cwd does not exist: " ++
        resolvePath root d),
       pre.map (spawnEvent root)) ∧
    (∀ name cmd d2 args stdio, w.dirExists (resolvePath root d2) = false →
      run_shell_task w root name cmd (some d2) args stdio =
        (Except.error ("Task '" ++ display_task_name name ++
          "' cwd does not exist: " ++ resolvePath root d2), [])) := by
  constructor
  · unfold run_manager_daemon_startup
    rw [spawnLoop_stops_at_bad_cwd w root pre bad post d hpre hbad hmiss]
  · intro name cmd d2 args stdio hmiss2
    unfold run_shell_task
    simp only [hmiss2, Bool.false_eq_true, if_false]

/-- World for the C4 counterexample and witness: no directory exists. -/
def WMgr : TaskWorld :=
  ⟨fun _ => false, fun _ _ => some 0⟩

/-- A spec with no cwd (always passes the check). -/
def CfgGood : ProcessConfig :=
  ⟨"good", "cmd1", none, none, none⟩

/-- A spec whose cwd `missing` does not exist. -/
def CfgBad : ProcessConfig :=
  ⟨"bad", "cmd2", none, none, some "missing"⟩

/-- Counterexample to C4 as stated: with specs `[good, bad]` where only
`bad` declares a (nonexistent) cwd, startup does fail with the descriptive
error and never persists state — but `good`'s process has already been
spawned when the failure occurs, so the failure does *not* happen "before
any process is spawned". -/
theorem cwd_validation_counterexample :
    run_manager_daemon_startup WMgr [CfgGood, CfgBad] "/sd" "/r" =
      (Except.error "Process 'bad' cwd does not exist: /r/missing",
       [.spawned "good" "cmd1" none]) ∧
    [MgrEvent.spawned "good" "cmd1" none] ≠ [] :=
  ⟨rfl, by decide⟩

/-- Witness for the amended C4 at the concrete specs `[good, bad]` and a
concrete shell task. -/
theorem cwd_validation_amended_witness :
    run_manager_daemon_startup WMgr [CfgGood, CfgBad] "/sd" "/r" =
      (Except.error "Process 'bad' cwd does not exist: /r/missing",
       [.spawned "good" "cmd1" none]) ∧
    run_shell_task WMgr "/r" "t.x" "make" (some "miss2") [] StdioMode.modeInherit =
      (Except.error "Task 't:x' cwd does not exist: /r/miss2", []) := by
  obtain ⟨h1, h2⟩ := cwd_validation_amended WMgr "/r" "/sd" [CfgGood] CfgBad []
    "missing" (by decide) rfl rfl
  exact ⟨h1.trans rfl,
    (h2 "t.x" "make" "miss2" [] StdioMode.modeInherit rfl).trans rfl⟩

end Oxproc
